import Mathlib

/-!
Shallow embedding of the scraper in src/dlsp.py, together with proofs about
the claims C1..C10 on its specification.

The program is a two-phase crawler: phase 1 scans listing pages for detail
URLs (process_page), phase 2 fetches each detail page and writes one text
record per item (parse_and_save_game), both through a bounded-retry fetch
primitive (make_request_with_retry).  Pure string manipulation and the
structure of the fetched documents are embedded as Lean data; network fetch
results are passed in as explicit values (an oracle of per-attempt outcomes
for the retry loop, an Option document for a whole fetch).
-/

/-! ## Python string primitives -/

/-- The ASCII whitespace characters recognised by Python str.strip and
by the regex class backslash-s. -/
def pySpace (c : Char) : Bool :=
  c = ' ' || c = '\t' || c = '\n' || c = '\r' || c = '\x0b' || c = '\x0c'

/-- Drop the longest suffix of elements satisfying p (structural version,
recursing on the list from the front). -/
def dropEndWhile (p : α → Bool) : List α → List α
  | [] => []
  | a :: t =>
    let r := dropEndWhile p t
    if r.isEmpty && p a then [] else a :: r

/-- Python str.strip on a character list: remove leading and trailing
ASCII whitespace. -/
def pyStrip (l : List Char) : List Char :=
  dropEndWhile pySpace (l.dropWhile pySpace)

/-- Python str.strip on strings. -/
def pyStripStr (s : String) : String := ⟨pyStrip s.data⟩

/-- Python str.lower (ASCII model). -/
def strLower (s : String) : String := ⟨s.data.map Char.toLower⟩

/-- Whether the second list occurs at the head of the first. -/
def listHasPre : List Char → List Char → Bool
  | _, [] => true
  | [], _ :: _ => false
  | b :: bs, a :: as => a = b && listHasPre bs as

/-- Whether needle occurs as a contiguous sublist of hay
(Python substring membership test). -/
def listHasSub (needle : List Char) : List Char → Bool
  | [] => needle.isEmpty
  | c :: rest => listHasPre (c :: rest) needle || listHasSub needle rest

/-- Python membership test: needle in hay. -/
def strHasSub (hay needle : String) : Bool := listHasSub needle.data hay.data

/-! ## sanitize_filename (src/dlsp.py lines 38-40) -/

/-- The characters removed by sanitize_filename:
backslash / * ? : double-quote < > | . -/
def badFilenameChar (c : Char) : Bool :=
  c = '\\' || c = '/' || c = '*' || c = '?' || c = ':' || c = '"' ||
  c = '<' || c = '>' || c = '|'

/-- sanitize_filename: delete every invalid filename character, then strip
surrounding whitespace (re.sub followed by .strip()). -/
def sanitize_filename (s : String) : String :=
  pyStripStr ⟨s.data.filter (fun c => !badFilenameChar c)⟩

/-! ## make_request_with_retry (src/dlsp.py lines 42-57)

The network is an oracle assigning each attempt index its outcome: some
response, or none for a transport error / bad HTTP status.  The embedding
returns the number of attempts performed together with the final outcome
(none corresponds to the exception raised after the last failed attempt). -/

def retryFrom (oracle : Nat → Option α) (attempt : Nat) : Nat → Nat × Option α
  | 0 =>
    match oracle attempt with
    | some r => (1, some r)
    | none => (1, none)
  | rem + 1 =>
    match oracle attempt with
    | some r => (1, some r)
    | none =>
      let p := retryFrom oracle (attempt + 1) rem
      (p.1 + 1, p.2)

/-- make_request_with_retry: attempts 0, 1, ..., max_retries in order,
stopping at the first success; after max_retries + 1 failures the
exception propagates (modelled as none). -/
def make_request_with_retry (oracle : Nat → Option α) (max_retries : Nat) :
    Nat × Option α :=
  retryFrom oracle 0 max_retries

/-! ## Lemmas on the string primitives -/

theorem head?_dropWhile_not (p : α → Bool) :
    ∀ (l : List α) (c : α), (l.dropWhile p).head? = some c → p c = false := by
  intro l
  induction l with
  | nil => intro c h; simp [List.dropWhile] at h
  | cons a t ih =>
    intro c h
    by_cases hp : p a
    · rw [List.dropWhile_cons_of_pos hp] at h
      exact ih c h
    · rw [List.dropWhile_cons_of_neg hp] at h
      simp at h
      subst h
      exact Bool.eq_false_iff.mpr hp

theorem mem_of_mem_dropWhile (p : α → Bool) :
    ∀ (l : List α) (a : α), a ∈ l.dropWhile p → a ∈ l := by
  intro l
  induction l with
  | nil => intro a h; simp [List.dropWhile] at h
  | cons b t ih =>
    intro a h
    by_cases hp : p b
    · rw [List.dropWhile_cons_of_pos hp] at h
      exact List.mem_cons_of_mem b (ih a h)
    · rwa [List.dropWhile_cons_of_neg hp] at h

theorem dropWhile_eq_self_of_head (p : α → Bool) (l : List α)
    (h : ∀ c, l.head? = some c → p c = false) : l.dropWhile p = l := by
  cases l with
  | nil => rfl
  | cons a t =>
    have ha : p a = false := h a rfl
    rw [List.dropWhile_cons_of_neg (by simp [ha])]

theorem mem_of_mem_dropEndWhile (p : α → Bool) :
    ∀ (l : List α) (a : α), a ∈ dropEndWhile p l → a ∈ l := by
  intro l
  induction l with
  | nil => intro a h; simp [dropEndWhile] at h
  | cons b t ih =>
    intro a h
    simp only [dropEndWhile] at h
    by_cases hc : (dropEndWhile p t).isEmpty && p b
    · rw [if_pos hc] at h; simp at h
    · rw [if_neg hc] at h
      rcases List.mem_cons.mp h with h1 | h2
      · exact h1 ▸ List.mem_cons_self b t
      · exact List.mem_cons_of_mem b (ih a h2)

theorem head?_dropEndWhile (p : α → Bool) :
    ∀ (l : List α) (c : α), (dropEndWhile p l).head? = some c → l.head? = some c := by
  intro l
  cases l with
  | nil => intro c h; simp [dropEndWhile] at h
  | cons b t =>
    intro c h
    simp only [dropEndWhile] at h
    by_cases hc : (dropEndWhile p t).isEmpty && p b
    · rw [if_pos hc] at h; simp at h
    · rw [if_neg hc] at h
      simp at h
      simp [h]

theorem getLast?_dropEndWhile (p : α → Bool) :
    ∀ (l : List α) (c : α), (dropEndWhile p l).getLast? = some c → p c = false := by
  intro l
  induction l with
  | nil => intro c h; simp [dropEndWhile] at h
  | cons b t ih =>
    intro c h
    simp only [dropEndWhile] at h
    by_cases hc : (dropEndWhile p t).isEmpty && p b
    · rw [if_pos hc] at h; simp at h
    · rw [if_neg hc] at h
      cases hr : dropEndWhile p t with
      | nil =>
        rw [hr] at h
        simp at h
        subst h
        rcases Bool.and_eq_false_iff.mp (Bool.eq_false_iff.mpr hc) with h1 | h2
        · rw [hr] at h1; simp at h1
        · exact h2
      | cons x xs =>
        rw [hr] at h
        rw [List.getLast?_cons_cons] at h
        exact ih c (hr ▸ h)

theorem dropEndWhile_idem (p : α → Bool) (l : List α) :
    dropEndWhile p (dropEndWhile p l) = dropEndWhile p l := by
  induction l with
  | nil => rfl
  | cons b t ih =>
    simp only [dropEndWhile]
    by_cases hc : (dropEndWhile p t).isEmpty && p b
    · rw [if_pos hc]; rfl
    · rw [if_neg hc]
      simp only [dropEndWhile, ih]
      rw [if_neg hc]

theorem pyStrip_idem (l : List Char) : pyStrip (pyStrip l) = pyStrip l := by
  unfold pyStrip
  rw [dropWhile_eq_self_of_head pySpace (dropEndWhile pySpace (l.dropWhile pySpace))]
  · exact dropEndWhile_idem pySpace _
  · intro c hc
    exact head?_dropWhile_not pySpace l c (head?_dropEndWhile pySpace _ c hc)

theorem mem_of_mem_pyStrip (l : List Char) (c : Char) (h : c ∈ pyStrip l) : c ∈ l :=
  mem_of_mem_dropWhile pySpace l c
    (mem_of_mem_dropEndWhile pySpace (l.dropWhile pySpace) c h)

theorem pyStrip_head (l : List Char) (c : Char) (h : (pyStrip l).head? = some c) :
    pySpace c = false :=
  head?_dropWhile_not pySpace l c (head?_dropEndWhile pySpace _ c h)

theorem pyStrip_getLast (l : List Char) (c : Char) (h : (pyStrip l).getLast? = some c) :
    pySpace c = false :=
  getLast?_dropEndWhile pySpace _ c h

/-! ## C10: sanitize_filename is idempotent and clean -/

/-- Claim C10: filename sanitization is idempotent, its result contains
none of the forbidden characters backslash / * ? : double-quote < > | ,
and it has no leading or trailing whitespace. -/
theorem sanitize_filename_idem_clean (s : String) :
    sanitize_filename (sanitize_filename s) = sanitize_filename s ∧
    (∀ c, c ∈ (sanitize_filename s).data → badFilenameChar c = false) ∧
    (∀ c, (sanitize_filename s).data.head? = some c → pySpace c = false) ∧
    (∀ c, (sanitize_filename s).data.getLast? = some c → pySpace c = false) := by
  have hdata : (sanitize_filename s).data = pyStrip (s.data.filter (fun c => !badFilenameChar c)) := rfl
  have hmem : ∀ c, c ∈ (sanitize_filename s).data → badFilenameChar c = false := by
    intro c hc
    rw [hdata] at hc
    have := List.of_mem_filter (mem_of_mem_pyStrip _ c hc)
    simpa using this
  refine ⟨?_, hmem, ?_, ?_⟩
  · show pyStripStr ⟨((sanitize_filename s).data).filter (fun c => !badFilenameChar c)⟩ =
      sanitize_filename s
    have hfilter : ((sanitize_filename s).data).filter (fun c => !badFilenameChar c) =
        (sanitize_filename s).data := by
      apply List.filter_eq_self.mpr
      intro a ha
      simp [hmem a ha]
    rw [hfilter]
    show String.mk (pyStrip (sanitize_filename s).data) = sanitize_filename s
    rw [hdata, pyStrip_idem]
    rfl
  · intro c hc
    rw [hdata] at hc
    exact pyStrip_head _ c hc
  · intro c hc
    rw [hdata] at hc
    exact pyStrip_getLast _ c hc

/-- Witness for C10 at the concrete input " a*b ". -/
theorem sanitize_filename_idem_clean_w :
    sanitize_filename (sanitize_filename " a*b ") = sanitize_filename " a*b " ∧
    badFilenameChar 'a' = false ∧ pySpace 'a' = false :=
  ⟨(sanitize_filename_idem_clean " a*b ").1,
   (sanitize_filename_idem_clean " a*b ").2.1 'a' (by decide),
   (sanitize_filename_idem_clean " a*b ").2.2.1 'a' (by decide)⟩

/-! ## C2: retry attempt counts -/

theorem retryFrom_all_none (oracle : Nat → Option α) (h : ∀ i, oracle i = none) :
    ∀ (rem a : Nat), retryFrom oracle a rem = (rem + 1, none) := by
  intro rem
  induction rem with
  | zero => intro a; simp [retryFrom, h a]
  | succ n ih =>
    intro a
    simp [retryFrom, h a, ih (a + 1)]

/-- Claim C2: when every attempt fails, make_request_with_retry performs
exactly max_retries + 1 attempts and ends in failure; when the first
attempt succeeds it performs exactly one attempt and returns that
response. -/
theorem make_request_with_retry_attempts (oracle : Nat → Option α) (max_retries : Nat) :
    ((∀ i, oracle i = none) →
      make_request_with_retry oracle max_retries = (max_retries + 1, none)) ∧
    (∀ r, oracle 0 = some r →
      make_request_with_retry oracle max_retries = (1, some r)) := by
  constructor
  · intro h
    exact retryFrom_all_none oracle h max_retries 0
  · intro r h
    cases max_retries with
    | zero => simp [make_request_with_retry, retryFrom, h]
    | succ n => simp [make_request_with_retry, retryFrom, h]

/-- Witness for C2: sustained failure with max_retries = 2 gives 3 attempts;
first-attempt success with max_retries = 5 gives 1 attempt and the response. -/
theorem make_request_with_retry_attempts_w :
    make_request_with_retry (fun _ => (none : Option Nat)) 2 = (3, none) ∧
    make_request_with_retry (fun _ => some 7) 5 = (1, some 7) :=
  ⟨(make_request_with_retry_attempts (fun _ => (none : Option Nat)) 2).1 (fun _ => rfl),
   (make_request_with_retry_attempts (fun _ => some 7) 5).2 7 rfl⟩

/-! ## Document model

A flat model of the parsed HTML the extraction code inspects: anchors carry
an optional href attribute and raw text; cells (td elements) carry raw text
and their anchors in document order; tables carry rows (tr elements) which
carry cells; a document carries the first h1.entry-title text (if any), all
tables in document order, and the full visible text returned by get_text(). -/

structure Anchor where
  href : Option String
  text : String
deriving DecidableEq, Repr

structure Cell where
  text : String
  anchors : List Anchor
deriving DecidableEq, Repr

structure Row where
  cells : List Cell
deriving DecidableEq, Repr

structure Table where
  rows : List Row
deriving DecidableEq, Repr

structure Doc where
  entryTitle : Option String
  tables : List Table
  fullText : String
deriving DecidableEq, Repr

/-- get_text(strip=True) on a flat node: strip surrounding whitespace. -/
def getTextStrip (s : String) : String := pyStripStr s

/-! ## Python dict model (insertion-ordered, last assignment wins) -/

/-- Assignment d[k] = v on an insertion-ordered association list: overwrite
in place when the key is present, else append. -/
def dictInsert (d : List (String × String)) (k v : String) : List (String × String) :=
  if d.any (fun p => p.1 == k) then
    d.map (fun p => if p.1 == k then (k, v) else p)
  else d ++ [(k, v)]

/-- d.get(k, dflt). -/
def dictGet (d : List (String × String)) (k dflt : String) : String :=
  match d.find? (fun p => p.1 == k) with
  | some p => p.2
  | none => dflt

/-! ## Attribute table (src/dlsp.py lines 71-83) -/

/-- Python str.replace(":", ""): remove every colon. -/
def removeColons (s : String) : String := ⟨s.data.filter (fun c => c != ':')⟩

/-- The key/value pair a row contributes to table_data: rows with at least
two cells give (first cell text stripped with all colons removed,
second cell text stripped); shorter rows give nothing. -/
def rowKV (r : Row) : Option (String × String) :=
  match r.cells with
  | c0 :: c1 :: _ => some (removeColons (getTextStrip c0.text), getTextStrip c1.text)
  | _ => none

/-- table_data built from the rows of a table (the code uses the first
table only). -/
def buildTableData (rows : List Row) : List (String × String) :=
  rows.foldl
    (fun d r =>
      match rowKV r with
      | some kv => dictInsert d kv.1 kv.2
      | none => d)
    []

/-- Rows of info_tables[0], or none when the page has no table. -/
def firstTableRows (d : Doc) : List Row :=
  match d.tables with
  | [] => []
  | t :: _ => t.rows

def tableDataOf (d : Doc) : List (String × String) := buildTableData (firstTableRows d)

def versionOf (d : Doc) : String := dictGet (tableDataOf d) "Game Version" "Unknown"

def languageOf (d : Doc) : String := dictGet (tableDataOf d) "Language" "Unknown"

def firmwareOf (d : Doc) : String := dictGet (tableDataOf d) "Required firmware" "Unknown"

/-- Strip one trailing colon, if present.  This is the key construction the
claim describes; it is compared against the source's removeColons. -/
def stripTrailingColon (s : String) : String :=
  match s.data.getLast? with
  | some c => if c = ':' then ⟨s.data.dropLast⟩ else s
  | none => s

/-- Key/value pair of a row as the claim states it (trailing colon only). -/
def rowKVSpec (r : Row) : Option (String × String) :=
  match r.cells with
  | c0 :: c1 :: _ => some (stripTrailingColon (getTextStrip c0.text), getTextStrip c1.text)
  | _ => none

/-- table_data as the claim states it. -/
def buildTableDataSpec (rows : List Row) : List (String × String) :=
  rows.foldl
    (fun d r =>
      match rowKVSpec r with
      | some kv => dictInsert d kv.1 kv.2
      | none => d)
    []

/-! ## Listing page scan (src/dlsp.py lines 149-168) -/

/-- The code's year-like path segment marker: the substring "/20"
(the opening of a /20xx path segment). -/
def yearMark : String := "/20"

/-- The platform token looked for case-insensitively in each href. -/
def platformToken : String := "ps4"

/-- The filter applied to each h2.entry-title anchor: keep its href when the
href is present and contains "/20" and, lowercased, contains "ps4".
(A Python-falsy empty href is rejected by both conditions anyway.) -/
def keepHref (a : Anchor) : Option String :=
  match a.href with
  | some h => if strHasSub h yearMark && strHasSub (strLower h) platformToken then some h else none
  | none => none

/-- process_page on the anchors selected by "h2.entry-title a": the kept
hrefs in document order. -/
def process_page (anchors : List Anchor) : List String :=
  anchors.filterMap keepHref

/-! ## Lemmas about the dict model -/

theorem find?_map_replace_ne (k v k2 : String) (h : k2 ≠ k) :
    ∀ t : List (String × String),
      (t.map (fun p => if p.1 == k then (k, v) else p)).find? (fun p => p.1 == k2) =
        t.find? (fun p => p.1 == k2) := by
  intro t
  induction t with
  | nil => rfl
  | cons q r ih =>
    simp only [List.map_cons]
    by_cases hq : q.1 = k
    · have e1 : (if (q.1 == k) = true then ((k, v) : String × String) else q) = (k, v) := by
        simp [hq]
      rw [e1, List.find?_cons_of_neg _ (by simp; exact fun hh => h hh.symm),
        List.find?_cons_of_neg _ (by simp [hq]; exact fun hh => h hh.symm)]
      exact ih
    · have e1 : (if (q.1 == k) = true then ((k, v) : String × String) else q) = q := by
        simp [hq]
      rw [e1]
      cases hq2 : (q.1 == k2) with
      | true =>
        have e2 : List.find? (fun p => p.1 == k2)
            (q :: List.map (fun p => if (p.1 == k) = true then (k, v) else p) r) = some q :=
          List.find?_cons_of_pos _ hq2
        have e3 : List.find? (fun p => p.1 == k2) (q :: r) = some q :=
          List.find?_cons_of_pos _ hq2
        rw [e2, e3]
      | false =>
        rw [List.find?_cons_of_neg _ (by simp [hq2]), List.find?_cons_of_neg _ (by simp [hq2])]
        exact ih

theorem find?_map_replace_self (k v : String) :
    ∀ t : List (String × String),
      (t.map (fun p => if p.1 == k then (k, v) else p)).find? (fun p => p.1 == k) =
        if t.any (fun p => p.1 == k) then some (k, v) else none := by
  intro t
  induction t with
  | nil => rfl
  | cons q r ih =>
    simp only [List.map_cons, List.any_cons]
    by_cases hq : q.1 = k
    · have e1 : (if (q.1 == k) = true then ((k, v) : String × String) else q) = (k, v) := by
        simp [hq]
      have h1 : (q.1 == k) = true := by simp [hq]
      rw [e1, List.find?_cons_of_pos _ (by simp)]
      simp [h1]
    · have e1 : (if (q.1 == k) = true then ((k, v) : String × String) else q) = q := by
        simp [hq]
      have h1 : (q.1 == k) = false := by simp [hq]
      rw [e1, List.find?_cons_of_neg _ (by simp [h1])]
      simp only [h1, Bool.false_or]
      exact ih

theorem find?_append_cases (g : String × String → Bool) :
    ∀ (l1 l2 : List (String × String)),
      (l1 ++ l2).find? g =
        match l1.find? g with
        | some x => some x
        | none => l2.find? g := by
  intro l1 l2
  induction l1 with
  | nil => rfl
  | cons q r ih =>
    simp only [List.cons_append, List.find?]
    cases hg : g q with
    | true => rfl
    | false => exact ih

theorem find?_eq_none_of_any_false (g : String × String → Bool) :
    ∀ t : List (String × String), t.any g = false → t.find? g = none := by
  intro t
  induction t with
  | nil => intro _; rfl
  | cons q r ih =>
    intro h
    simp only [List.any_cons, Bool.or_eq_false_iff] at h
    simp only [List.find?, h.1]
    exact ih h.2

theorem dictGet_dictInsert_self (d : List (String × String)) (k v dflt : String) :
    dictGet (dictInsert d k v) k dflt = v := by
  unfold dictInsert dictGet
  by_cases h : d.any (fun p => p.1 == k)
  · rw [if_pos h, find?_map_replace_self, if_pos h]
  · rw [if_neg h, find?_append_cases,
      find?_eq_none_of_any_false _ d (Bool.eq_false_iff.mpr h)]
    simp [List.find?]

theorem dictGet_dictInsert_ne (d : List (String × String)) (k v k2 dflt : String)
    (h : k2 ≠ k) : dictGet (dictInsert d k v) k2 dflt = dictGet d k2 dflt := by
  unfold dictInsert dictGet
  by_cases ha : d.any (fun p => p.1 == k)
  · rw [if_pos ha, find?_map_replace_ne k v k2 h]
  · rw [if_neg ha, find?_append_cases]
    cases hf : d.find? (fun p => p.1 == k2) with
    | some x => rfl
    | none =>
      have : ((k, v).1 == k2) = false := by simp; exact fun hh => h hh.symm
      simp [List.find?, this]

/-- Lookup in the key/value pairs of the rows, last occurrence winning. -/
def lastKV (kvs : List (String × String)) (k dflt : String) : String :=
  match kvs.reverse.find? (fun p => p.1 == k) with
  | some p => p.2
  | none => dflt

theorem buildTableData_foldl (k dflt : String) :
    ∀ (rows : List Row) (d : List (String × String)),
      dictGet
        (rows.foldl
          (fun d r =>
            match rowKV r with
            | some kv => dictInsert d kv.1 kv.2
            | none => d)
          d) k dflt =
        match (rows.filterMap rowKV).reverse.find? (fun p => p.1 == k) with
        | some p => p.2
        | none => dictGet d k dflt := by
  intro rows
  induction rows with
  | nil => intro d; rfl
  | cons r rs ih =>
    intro d
    simp only [List.foldl_cons, List.filterMap_cons]
    cases hr : rowKV r with
    | none => exact ih d
    | some kv =>
      simp only [List.reverse_cons, find?_append_cases]
      rw [ih]
      cases hf : (rs.filterMap rowKV).reverse.find? (fun p => p.1 == k) with
      | some p => rfl
      | none =>
        simp only [List.find?]
        by_cases hk : kv.1 = k
        · have h1 : (kv.1 == k) = true := by simp [hk]
          rw [h1]
          subst hk
          simp [dictGet_dictInsert_self]
        · have h1 : (kv.1 == k) = false := by simp [hk]
          rw [h1]
          simp only [List.find?_nil]
          exact dictGet_dictInsert_ne d kv.1 kv.2 k dflt (fun hh => hk hh.symm)

/-! ## C4: attribute mapping construction and lookups -/

/-- Claim C4 (amended): the attribute mapping is built from the rows of the
first table having at least two cells, the key being the first cell's
stripped text with all colons removed and the value the second cell's
stripped text; a lookup returns the value of the last such row whose key
equals the looked-up key; version, language and firmware are looked up by
the exact keys with default "Unknown". -/
theorem tableData_lookup_last_wins :
    (∀ (rows : List Row) (k dflt : String),
      dictGet (buildTableData rows) k dflt = lastKV (rows.filterMap rowKV) k dflt) ∧
    (∀ d : Doc,
      versionOf d = dictGet (buildTableData (firstTableRows d)) "Game Version" "Unknown" ∧
      languageOf d = dictGet (buildTableData (firstTableRows d)) "Language" "Unknown" ∧
      firmwareOf d = dictGet (buildTableData (firstTableRows d)) "Required firmware" "Unknown") := by
  constructor
  · intro rows k dflt
    unfold buildTableData lastKV
    rw [buildTableData_foldl]
    cases hf : (rows.filterMap rowKV).reverse.find? (fun p => p.1 == k) with
    | some p => rfl
    | none => rfl
  · intro d
    exact ⟨rfl, rfl, rfl⟩

/-- Witness for C4's theorem: a duplicate key resolves to the later row's
value, computed through the theorem at a concrete table. -/
theorem tableData_lookup_last_wins_w :
    dictGet
      (buildTableData [Row.mk [Cell.mk "V" [], Cell.mk "1" []],
        Row.mk [Cell.mk "V" [], Cell.mk "2" []]]) "V" "Unknown" = "2" := by
  rw [tableData_lookup_last_wins.1]
  decide

/-- The row refuting C4 as stated: its first cell's text has an interior
colon, which the source also deletes. -/
def colonRow : Row := Row.mk [Cell.mk "Game: Version:" [], Cell.mk "1.0" []]

/-- Counterexample to C4 as stated: on a first cell reading
"Game: Version:" the source key is "Game Version" (all colons removed, so
the "Game Version" lookup succeeds), while stripping only a trailing colon
would give "Game: Version". -/
theorem tableData_colon_cex :
    buildTableData [colonRow] = [("Game Version", "1.0")] ∧
    buildTableDataSpec [colonRow] = [("Game: Version", "1.0")] ∧
    buildTableData [colonRow] ≠ buildTableDataSpec [colonRow] := by
  refine ⟨by decide, by decide, by decide⟩

/-! ## C5 and C6: listing page filter -/

theorem keepHref_some (a : Anchor) (b : String) (hb : keepHref a = some b) :
    a.href = some b ∧ strHasSub b yearMark = true ∧
      strHasSub (strLower b) platformToken = true := by
  unfold keepHref at hb
  split at hb
  · next h0 heq =>
    split at hb
    · next hc =>
      obtain rfl : h0 = b := by simpa using hb
      exact ⟨heq, (Bool.and_eq_true_iff.mp hc).1, (Bool.and_eq_true_iff.mp hc).2⟩
    · exact absurd hb (by simp)
  · exact absurd hb (by simp)

/-- Claim C5: every href returned by the listing-page scan contains the
year-like path segment marker "/20". -/
theorem process_page_year (anchors : List Anchor) (h : String)
    (hmem : h ∈ process_page anchors) : strHasSub h yearMark = true := by
  unfold process_page at hmem
  rcases List.mem_filterMap.mp hmem with ⟨a, _, hfa⟩
  exact (keepHref_some a h hfa).2.1

/-- Witness for C5 at a concrete listing anchor. -/
theorem process_page_year_w : strHasSub "a/2024/ps4-item" yearMark = true :=
  process_page_year [Anchor.mk (some "a/2024/ps4-item") "t"] "a/2024/ps4-item"
    (by rw [show process_page [Anchor.mk (some "a/2024/ps4-item") "t"] =
          ["a/2024/ps4-item"] from rfl]
        exact List.mem_singleton_self _)

/-- Claim C6: every href returned by the listing-page scan contains the
platform token "ps4" case-insensitively, and the returned hrefs form an
in-order subsequence of the anchors' hrefs (document order). -/
theorem process_page_platform_order (anchors : List Anchor) :
    (∀ h, h ∈ process_page anchors → strHasSub (strLower h) platformToken = true) ∧
    List.Sublist (process_page anchors) (anchors.filterMap Anchor.href) := by
  constructor
  · intro h hmem
    unfold process_page at hmem
    rcases List.mem_filterMap.mp hmem with ⟨a, _, hfa⟩
    exact (keepHref_some a h hfa).2.2
  · induction anchors with
    | nil => simp [process_page]
    | cons a t ih =>
      unfold process_page at ih ⊢
      simp only [List.filterMap_cons]
      cases hk : keepHref a with
      | none =>
        cases ha : a.href with
        | none => exact ih
        | some h0 => exact List.Sublist.cons h0 ih
      | some b =>
        rw [(keepHref_some a b hk).1]
        exact List.Sublist.cons₂ b ih

/-- Witness for C6 at a concrete listing anchor. -/
theorem process_page_platform_order_w :
    strHasSub (strLower "b/2023/PS4-item") platformToken = true :=
  (process_page_platform_order [Anchor.mk (some "b/2023/PS4-item") "t"]).1
    "b/2023/PS4-item"
    (by rw [show process_page [Anchor.mk (some "b/2023/PS4-item") "t"] =
          ["b/2023/PS4-item"] from rfl]
        exact List.mem_singleton_self _)

/-! ## Size token extraction (src/dlsp.py lines 85-86, 124-128)

The regex r"(backslash-d{1,3} backslash-dot backslash-d{1,2} backslash-s? GB)"
applied with re.findall: scan left to right, at each position try the
pattern with the usual greedy backtracking (longest digit runs first,
whitespace consumed when possible), emit the leftmost non-overlapping
matches in order.  The matchers below return (matched characters, rest). -/

def matchGB : List Char → Option (List Char × List Char)
  | a :: b :: rest =>
    if a = 'G' then if b = 'B' then some ([a, b], rest) else none else none
  | _ => none

def matchSpaceGB : List Char → Option (List Char × List Char)
  | [] => none
  | c :: rest =>
    if pySpace c then
      match matchGB rest with
      | some (m, r) => some (c :: m, r)
      | none => matchGB (c :: rest)
    else matchGB (c :: rest)

def matchFrac : List Char → Option (List Char × List Char)
  | d1 :: d2 :: rest2 =>
    if d1.isDigit then
      if d2.isDigit then
        match matchSpaceGB rest2 with
        | some (m, r) => some (d1 :: d2 :: m, r)
        | none =>
          match matchSpaceGB (d2 :: rest2) with
          | some (m, r) => some (d1 :: m, r)
          | none => none
      else
        match matchSpaceGB (d2 :: rest2) with
        | some (m, r) => some (d1 :: m, r)
        | none => none
    else none
  | _ => none

def matchDot : List Char → Option (List Char × List Char)
  | [] => none
  | c :: rest =>
    if c = '.' then
      match matchFrac rest with
      | some (m, r) => some (c :: m, r)
      | none => none
    else none

def matchSizeAt : List Char → Option (List Char × List Char)
  | a :: b :: c :: rest =>
    if a.isDigit then
      if b.isDigit then
        if c.isDigit then
          match matchDot rest with
          | some (m, r) => some (a :: b :: c :: m, r)
          | none =>
            match matchDot (c :: rest) with
            | some (m, r) => some (a :: b :: m, r)
            | none =>
              match matchDot (b :: c :: rest) with
              | some (m, r) => some (a :: m, r)
              | none => none
        else
          match matchDot (c :: rest) with
          | some (m, r) => some (a :: b :: m, r)
          | none =>
            match matchDot (b :: c :: rest) with
            | some (m, r) => some (a :: m, r)
            | none => none
      else
        match matchDot (b :: c :: rest) with
        | some (m, r) => some (a :: m, r)
        | none => none
    else none
  | _ => none

/-- The findall scan.  Fuel decreases every step while the list loses at
least one character (a match consumes at least five), so fuel equal to the
initial length never runs out. -/
def findSizes : Nat → List Char → List String
  | 0, _ => []
  | _ + 1, [] => []
  | fuel + 1, c :: rest =>
    match matchSizeAt (c :: rest) with
    | some (m, r) => String.mk m :: findSizes fuel r
    | none => findSizes fuel rest

/-- size_matches = re.findall applied to the page text. -/
def size_matches (s : String) : List String := findSizes s.data.length s.data

/-- The "Detected Sizes" section body (src/dlsp.py lines 124-128): one
"- size" line per match, or the single sentinel "- Unknown". -/
def sizesLines (sizes : List String) : List String :=
  if sizes.isEmpty then ["- Unknown"] else sizes.map (fun s => "- " ++ s)

/-- The tail of a size token after the fraction digits: either "GB" or one
character accepted by ws followed by "GB". -/
def tailShapeB (ws : Char → Bool) : List Char → Bool
  | ['G', 'B'] => true
  | [w, 'G', 'B'] => ws w
  | _ => false

/-- Anchored full-token test for the pattern "1-3 digits, dot, 1-2 digits,
optional ws character, GB".  With ws = pySpace this is the source regex
shape; with ws accepting only a space it is the shape the claim states. -/
def tokenShapeB (ws : Char → Bool) (l : List Char) : Bool :=
  let a := l.takeWhile Char.isDigit
  match l.dropWhile Char.isDigit with
  | '.' :: r2 =>
    let b := r2.takeWhile Char.isDigit
    decide (1 ≤ a.length) && decide (a.length ≤ 3) &&
    decide (1 ≤ b.length) && decide (b.length ≤ 2) &&
    tailShapeB ws (r2.dropWhile Char.isDigit)
  | _ => false

/-- The optional-whitespace component of a match. -/
def wOpt (w : List Char) : Prop := w = [] ∨ ∃ c, w = [c] ∧ pySpace c = true

theorem matchGB_shape (l m r : List Char) (h : matchGB l = some (m, r)) :
    m = ['G', 'B'] ∧ l = m ++ r := by
  cases l with
  | nil => simp [matchGB] at h
  | cons a t =>
    cases t with
    | nil => simp [matchGB] at h
    | cons b rest =>
      simp only [matchGB] at h
      by_cases ha : a = 'G'
      · by_cases hb : b = 'B'
        · rw [if_pos ha, if_pos hb] at h
          simp only [Option.some.injEq, Prod.mk.injEq] at h
          obtain ⟨rfl, rfl⟩ := h
          subst ha hb
          simp
        · rw [if_pos ha, if_neg hb] at h
          exact absurd h (by simp)
      · rw [if_neg ha] at h
        exact absurd h (by simp)

theorem matchSpaceGB_shape (l m r : List Char) (h : matchSpaceGB l = some (m, r)) :
    (∃ w, m = w ++ ['G', 'B'] ∧ wOpt w) ∧ l = m ++ r := by
  cases l with
  | nil => simp [matchSpaceGB] at h
  | cons c rest =>
    simp only [matchSpaceGB] at h
    by_cases hc : pySpace c
    · rw [if_pos hc] at h
      cases hg : matchGB rest with
      | some p =>
        obtain ⟨pm, pr⟩ := p
        rw [hg] at h
        simp only [Option.some.injEq, Prod.mk.injEq] at h
        obtain ⟨rfl, rfl⟩ := h
        obtain ⟨hgb, hrest⟩ := matchGB_shape rest pm pr hg
        subst hgb
        refine ⟨⟨[c], rfl, Or.inr ⟨c, rfl, hc⟩⟩, ?_⟩
        rw [hrest]
        rfl
      | none =>
        rw [hg] at h
        obtain ⟨hgb, hl⟩ := matchGB_shape _ m r h
        exact ⟨⟨[], by simp [hgb], Or.inl rfl⟩, hl⟩
    · rw [if_neg hc] at h
      obtain ⟨hgb, hl⟩ := matchGB_shape _ m r h
      exact ⟨⟨[], by simp [hgb], Or.inl rfl⟩, hl⟩

theorem matchFrac_shape (l m r : List Char) (h : matchFrac l = some (m, r)) :
    (∃ b w, m = b ++ w ++ ['G', 'B'] ∧ 1 ≤ b.length ∧ b.length ≤ 2 ∧
      b.all Char.isDigit = true ∧ wOpt w) ∧ l = m ++ r := by
  cases l with
  | nil => simp [matchFrac] at h
  | cons d1 rest1 =>
    cases rest1 with
    | nil => simp [matchFrac] at h
    | cons d2 rest2 =>
      simp only [matchFrac] at h
      by_cases h1 : d1.isDigit
      · rw [if_pos h1] at h
        by_cases h2 : d2.isDigit
        · rw [if_pos h2] at h
          cases hs : matchSpaceGB rest2 with
          | some p =>
            obtain ⟨pm, pr⟩ := p
            rw [hs] at h
            simp only [Option.some.injEq, Prod.mk.injEq] at h
            obtain ⟨rfl, rfl⟩ := h
            obtain ⟨⟨w, hw1, hw2⟩, hrest⟩ := matchSpaceGB_shape rest2 pm pr hs
            refine ⟨⟨[d1, d2], w, by simp [hw1], by simp, by simp, by simp [h1, h2], hw2⟩, ?_⟩
            simp [hrest]
          | none =>
            rw [hs] at h
            cases hs1 : matchSpaceGB (d2 :: rest2) with
            | some p =>
              obtain ⟨pm, pr⟩ := p
              rw [hs1] at h
              simp only [Option.some.injEq, Prod.mk.injEq] at h
              obtain ⟨rfl, rfl⟩ := h
              obtain ⟨⟨w, hw1, hw2⟩, hrest⟩ := matchSpaceGB_shape _ pm pr hs1
              refine ⟨⟨[d1], w, by simp [hw1], by simp, by simp, by simp [h1], hw2⟩, ?_⟩
              simp [hrest]
            | none => rw [hs1] at h; exact absurd h (by simp)
        · rw [if_neg h2] at h
          cases hs1 : matchSpaceGB (d2 :: rest2) with
          | some p =>
            obtain ⟨pm, pr⟩ := p
            rw [hs1] at h
            simp only [Option.some.injEq, Prod.mk.injEq] at h
            obtain ⟨rfl, rfl⟩ := h
            obtain ⟨⟨w, hw1, hw2⟩, hrest⟩ := matchSpaceGB_shape _ pm pr hs1
            refine ⟨⟨[d1], w, by simp [hw1], by simp, by simp, by simp [h1], hw2⟩, ?_⟩
            simp [hrest]
          | none => rw [hs1] at h; exact absurd h (by simp)
      · rw [if_neg h1] at h
        exact absurd h (by simp)

theorem matchDot_shape (l m r : List Char) (h : matchDot l = some (m, r)) :
    (∃ b w, m = '.' :: (b ++ w ++ ['G', 'B']) ∧ 1 ≤ b.length ∧ b.length ≤ 2 ∧
      b.all Char.isDigit = true ∧ wOpt w) ∧ l = m ++ r := by
  cases l with
  | nil => simp [matchDot] at h
  | cons c rest =>
    simp only [matchDot] at h
    by_cases hc : c = '.'
    · rw [if_pos hc] at h
      cases hf : matchFrac rest with
      | some p =>
        obtain ⟨pm, pr⟩ := p
        rw [hf] at h
        simp only [Option.some.injEq, Prod.mk.injEq] at h
        obtain ⟨rfl, rfl⟩ := h
        obtain ⟨⟨b, w, hb1, hb2, hb3, hb4, hw⟩, hrest⟩ := matchFrac_shape rest pm pr hf
        subst hc
        refine ⟨⟨b, w, by simp [hb1], hb2, hb3, hb4, hw⟩, ?_⟩
        simp [hrest]
      | none => rw [hf] at h; exact absurd h (by simp)
    · rw [if_neg hc] at h
      exact absurd h (by simp)

theorem matchSizeAt_shape (l m r : List Char) (h : matchSizeAt l = some (m, r)) :
    (∃ a b w, m = a ++ '.' :: (b ++ w ++ ['G', 'B']) ∧
      1 ≤ a.length ∧ a.length ≤ 3 ∧ a.all Char.isDigit = true ∧
      1 ≤ b.length ∧ b.length ≤ 2 ∧ b.all Char.isDigit = true ∧ wOpt w) ∧
    l = m ++ r := by
  cases l with
  | nil => simp [matchSizeAt] at h
  | cons x t =>
    cases t with
    | nil => simp [matchSizeAt] at h
    | cons y t2 =>
      cases t2 with
      | nil => simp [matchSizeAt] at h
      | cons z rest =>
        simp only [matchSizeAt] at h
        by_cases hx : x.isDigit
        · rw [if_pos hx] at h
          by_cases hy : y.isDigit
          · rw [if_pos hy] at h
            by_cases hz : z.isDigit
            · rw [if_pos hz] at h
              cases hd : matchDot rest with
              | some p =>
                obtain ⟨pm, pr⟩ := p
                rw [hd] at h
                simp only [Option.some.injEq, Prod.mk.injEq] at h
                obtain ⟨rfl, rfl⟩ := h
                obtain ⟨⟨b, w, hb1, hb2, hb3, hb4, hw⟩, hrest⟩ := matchDot_shape rest pm pr hd
                refine ⟨⟨[x, y, z], b, w, by simp [hb1], by simp, by simp,
                  by simp [hx, hy, hz], hb2, hb3, hb4, hw⟩, ?_⟩
                rw [hrest]
                simp
              | none =>
                rw [hd] at h
                cases hd2 : matchDot (z :: rest) with
                | some p =>
                  obtain ⟨pm, pr⟩ := p
                  rw [hd2] at h
                  simp only [Option.some.injEq, Prod.mk.injEq] at h
                  obtain ⟨rfl, rfl⟩ := h
                  obtain ⟨⟨b, w, hb1, hb2, hb3, hb4, hw⟩, hrest⟩ :=
                    matchDot_shape _ pm pr hd2
                  refine ⟨⟨[x, y], b, w, by simp [hb1], by simp, by simp,
                    by simp [hx, hy], hb2, hb3, hb4, hw⟩, ?_⟩
                  rw [hrest]
                  simp
                | none =>
                  rw [hd2] at h
                  cases hd3 : matchDot (y :: z :: rest) with
                  | some p =>
                    obtain ⟨pm, pr⟩ := p
                    rw [hd3] at h
                    simp only [Option.some.injEq, Prod.mk.injEq] at h
                    obtain ⟨rfl, rfl⟩ := h
                    obtain ⟨⟨b, w, hb1, hb2, hb3, hb4, hw⟩, hrest⟩ :=
                      matchDot_shape _ pm pr hd3
                    refine ⟨⟨[x], b, w, by simp [hb1], by simp, by simp,
                      by simp [hx], hb2, hb3, hb4, hw⟩, ?_⟩
                    rw [hrest]
                    simp
                  | none => rw [hd3] at h; exact absurd h (by simp)
            · rw [if_neg hz] at h
              cases hd2 : matchDot (z :: rest) with
              | some p =>
                obtain ⟨pm, pr⟩ := p
                rw [hd2] at h
                simp only [Option.some.injEq, Prod.mk.injEq] at h
                obtain ⟨rfl, rfl⟩ := h
                obtain ⟨⟨b, w, hb1, hb2, hb3, hb4, hw⟩, hrest⟩ :=
                  matchDot_shape _ pm pr hd2
                refine ⟨⟨[x, y], b, w, by simp [hb1], by simp, by simp,
                  by simp [hx, hy], hb2, hb3, hb4, hw⟩, ?_⟩
                rw [hrest]
                simp
              | none =>
                rw [hd2] at h
                cases hd3 : matchDot (y :: z :: rest) with
                | some p =>
                  obtain ⟨pm, pr⟩ := p
                  rw [hd3] at h
                  simp only [Option.some.injEq, Prod.mk.injEq] at h
                  obtain ⟨rfl, rfl⟩ := h
                  obtain ⟨⟨b, w, hb1, hb2, hb3, hb4, hw⟩, hrest⟩ :=
                    matchDot_shape _ pm pr hd3
                  refine ⟨⟨[x], b, w, by simp [hb1], by simp, by simp,
                    by simp [hx], hb2, hb3, hb4, hw⟩, ?_⟩
                  rw [hrest]
                  simp
                | none => rw [hd3] at h; exact absurd h (by simp)
          · rw [if_neg hy] at h
            cases hd3 : matchDot (y :: z :: rest) with
            | some p =>
              obtain ⟨pm, pr⟩ := p
              rw [hd3] at h
              simp only [Option.some.injEq, Prod.mk.injEq] at h
              obtain ⟨rfl, rfl⟩ := h
              obtain ⟨⟨b, w, hb1, hb2, hb3, hb4, hw⟩, hrest⟩ :=
                matchDot_shape _ pm pr hd3
              refine ⟨⟨[x], b, w, by simp [hb1], by simp, by simp,
                by simp [hx], hb2, hb3, hb4, hw⟩, ?_⟩
              rw [hrest]
              simp
            | none => rw [hd3] at h; exact absurd h (by simp)
        · rw [if_neg hx] at h
          exact absurd h (by simp)

theorem all_takeWhile_append (p : α → Bool) :
    ∀ (a : List α) (x : α) (t : List α), a.all p = true → p x = false →
      (a ++ x :: t).takeWhile p = a ∧ (a ++ x :: t).dropWhile p = x :: t := by
  intro a
  induction a with
  | nil =>
    intro x t _ hx
    constructor
    · simp [List.takeWhile_cons, hx]
    · simp [List.dropWhile_cons, hx]
  | cons q qs ih =>
    intro x t ha hx
    simp only [List.all_cons, Bool.and_eq_true] at ha
    obtain ⟨h1, h2⟩ := ih x t ha.2 hx
    constructor
    · simp [List.takeWhile_cons, ha.1, h1]
    · simp [List.dropWhile_cons, ha.1, h2]

theorem pySpace_not_digit (c : Char) (h : pySpace c = true) : c.isDigit = false := by
  simp only [pySpace, Bool.or_eq_true, decide_eq_true_eq] at h
  rcases h with ((((h | h) | h) | h) | h) | h <;> subst h <;> decide

theorem sizeShape_token (m : List Char)
    (hs : ∃ a b w, m = a ++ '.' :: (b ++ w ++ ['G', 'B']) ∧
      1 ≤ a.length ∧ a.length ≤ 3 ∧ a.all Char.isDigit = true ∧
      1 ≤ b.length ∧ b.length ≤ 2 ∧ b.all Char.isDigit = true ∧ wOpt w) :
    tokenShapeB pySpace m = true := by
  obtain ⟨a, b, w, hm, ha1, ha2, ha3, hb1, hb2, hb3, hw⟩ := hs
  subst hm
  obtain ⟨hta, hda⟩ :=
    all_takeWhile_append Char.isDigit a '.' (b ++ w ++ ['G', 'B']) ha3 (by decide)
  rcases hw with hw | ⟨c, hw, hc⟩
  · subst hw
    simp only [List.append_nil] at hta hda ⊢
    obtain ⟨htb, hdb⟩ := all_takeWhile_append Char.isDigit b 'G' ['B'] hb3 (by decide)
    simp only [tokenShapeB, hta, hda, htb, hdb]
    simp [ha1, ha2, hb1, hb2, tailShapeB]
  · subst hw
    have hcd : Char.isDigit c = false := pySpace_not_digit c hc
    have hr2 : b ++ [c] ++ ['G', 'B'] = b ++ c :: ['G', 'B'] := by simp
    rw [hr2] at hta hda ⊢
    obtain ⟨htb, hdb⟩ := all_takeWhile_append Char.isDigit b c ['G', 'B'] hb3 hcd
    simp only [tokenShapeB, hta, hda, htb, hdb]
    simp [ha1, ha2, hb1, hb2, tailShapeB, hc]

theorem findSizes_sound :
    ∀ (fuel : Nat) (l : List Char) (s : String),
      s ∈ findSizes fuel l → tokenShapeB pySpace s.data = true := by
  intro fuel
  induction fuel with
  | zero => intro l s h; simp [findSizes] at h
  | succ f ih =>
    intro l s h
    cases l with
    | nil => simp [findSizes] at h
    | cons c rest =>
      simp only [findSizes] at h
      cases hm : matchSizeAt (c :: rest) with
      | none => rw [hm] at h; exact ih rest s h
      | some p =>
        obtain ⟨m, r⟩ := p
        rw [hm] at h
        rcases List.mem_cons.mp h with h1 | h2
        · subst h1
          exact sizeShape_token m (matchSizeAt_shape (c :: rest) m r hm).1
        · exact ih r s h2

theorem findSizes_fuel :
    ∀ (f1 f2 : Nat) (l : List Char), l.length ≤ f1 → l.length ≤ f2 →
      findSizes f1 l = findSizes f2 l := by
  intro f1
  induction f1 with
  | zero =>
    intro f2 l h1 _
    have hl : l = [] := List.eq_nil_of_length_eq_zero (Nat.le_zero.mp h1)
    subst hl
    cases f2 <;> rfl
  | succ f ih =>
    intro f2 l h1 h2
    cases l with
    | nil => cases f2 <;> rfl
    | cons c rest =>
      cases f2 with
      | zero => simp at h2
      | succ g =>
        simp only [findSizes]
        cases hm : matchSizeAt (c :: rest) with
        | none =>
          simp only [List.length_cons] at h1 h2
          exact ih g rest (by omega) (by omega)
        | some p =>
          obtain ⟨m, r⟩ := p
          obtain ⟨⟨a, b, w, hm1, _⟩, hl⟩ := matchSizeAt_shape _ m r hm
          have hmne : m ≠ [] := by rw [hm1]; cases a <;> simp
          have hr : r.length + 1 ≤ (c :: rest).length := by
            rw [hl]
            cases hmm : m with
            | nil => exact absurd hmm hmne
            | cons u v =>
              simp only [List.length_append, List.length_cons]
              omega
          simp only [List.length_cons] at h1 h2 hr
          have he := ih g r (by omega) (by omega)
          simp [he]

/-- Claim C7 (amended): every token returned by the size scan matches the
pattern "1-3 digits, decimal point, 1-2 digits, optional whitespace
character, GB" (the source regex uses a whitespace class, not only a
space); the documented concrete input yields its two tokens in order; and
when no token matches, the serialized sizes section is the single sentinel
line "- Unknown". -/
theorem size_matches_spec :
    (∀ (fuel : Nat) (l : List Char) (s : String),
      s ∈ findSizes fuel l → tokenShapeB pySpace s.data = true) ∧
    size_matches "This game is 12.34 GB, patch adds 0.56 GB" =
      ["12.34 GB", "0.56 GB"] ∧
    (∀ text : String, size_matches text = [] →
      sizesLines (size_matches text) = ["- Unknown"]) := by
  refine ⟨findSizes_sound, by decide, ?_⟩
  intro text h
  rw [h]
  rfl

/-- Witness for C7: the theorem applied to a concrete scan (token shape of
"12.34 GB") and to a concrete no-match text. -/
theorem size_matches_spec_w :
    tokenShapeB pySpace ("12.34 GB").data = true ∧
    sizesLines (size_matches "no sizes here") = ["- Unknown"] :=
  ⟨size_matches_spec.1 8 ("12.34 GB").data "12.34 GB"
      (by rw [show findSizes 8 ("12.34 GB").data = ["12.34 GB"] from by decide]
          exact List.mem_singleton_self _),
   size_matches_spec.2.2 "no sizes here" (by decide)⟩

/-- The optional separator as the claim states it: a space only. -/
def spaceOnly (c : Char) : Bool := c = ' '

/-- Counterexample to C7 as stated: on text containing a tab between the
digits and the unit, the scan returns the token "1.23 tab GB", which does
not match the claimed pattern with an optional space (but does match the
whitespace-class pattern the source uses). -/
theorem size_matches_space_cex :
    size_matches "1.23\tGB" = ["1.23\tGB"] ∧
    tokenShapeB spaceOnly ("1.23\tGB").data = false ∧
    tokenShapeB pySpace ("1.23\tGB").data = true := by
  refine ⟨by decide, by decide, by decide⟩

/-! ## Download link classification (src/dlsp.py lines 88-113) -/

structure SectionLinks where
  baseGame : List String
  update : List String
  fix : List String
  torrent : List String
deriving DecidableEq, Repr

def emptySections : SectionLinks := SectionLinks.mk [] [] [] []

/-- One formatted download entry, "href - display text". -/
def formatLink (href text : String) : String := href ++ " - " ++ getTextStrip text

/-- The formatted entries of every href-bearing anchor of a cell, in
document order (find_all("a", href=True)). -/
def cellLinks (c : Cell) : List String :=
  c.anchors.filterMap
    (fun a =>
      match a.href with
      | some h => some (formatLink h a.text)
      | none => none)

/-- One tr of a link table.  Rows with at least four cells are classified
by the lowercase stripped text of the first cell (base / update-not-fix /
fix, in that order) and contribute the fourth cell's links; rows with
exactly two cells whose first cell's lowercase text contains "torrent"
contribute the first anchor of the first cell.  Reading the href of an
anchor lacking one raises (KeyError), modelled as Except.error. -/
def processRow (sl : SectionLinks) (r : Row) : Except Unit SectionLinks :=
  match r.cells with
  | c0 :: _ :: _ :: c3 :: _ =>
    let label := strLower (pyStripStr c0.text)
    let links := cellLinks c3
    if strHasSub label "base" then
      Except.ok { sl with baseGame := sl.baseGame ++ links }
    else if strHasSub label "update" && !(strHasSub label "fix") then
      Except.ok { sl with update := sl.update ++ links }
    else if strHasSub label "fix" then
      Except.ok { sl with fix := sl.fix ++ links }
    else Except.ok sl
  | [c0, _] =>
    if strHasSub (strLower c0.text) "torrent" then
      match c0.anchors.head? with
      | some a =>
        match a.href with
        | some h => Except.ok { sl with torrent := sl.torrent ++ [formatLink h a.text] }
        | none => Except.error ()
      | none => Except.ok sl
    else Except.ok sl
  | _ => Except.ok sl

/-- The nested loop over every table's rows. -/
def processTables (tables : List Table) : Except Unit SectionLinks :=
  tables.foldlM (fun sl t => t.rows.foldlM processRow sl) emptySections

/-! ## Record assembly (src/dlsp.py lines 59-147) -/

/-- Title extraction: text of the first h1.entry-title, stripped;
"Unknown" when absent. -/
def gameNameOf (d : Doc) : String :=
  match d.entryTitle with
  | some t => pyStripStr t
  | none => "Unknown"

/-- The "Download Links" section body: one labelled subsection per
non-empty category, in the fixed order Base Game, Update, Fix, Torrent. -/
def sectionOutput (sl : SectionLinks) : List String :=
  (if sl.baseGame.isEmpty then [] else
    "\n[Base Game]" :: sl.baseGame.map (fun l => "- " ++ l)) ++
  (if sl.update.isEmpty then [] else
    "\n[Update]" :: sl.update.map (fun l => "- " ++ l)) ++
  (if sl.fix.isEmpty then [] else
    "\n[Fix]" :: sl.fix.map (fun l => "- " ++ l)) ++
  (if sl.torrent.isEmpty then [] else
    "\n[Torrent]" :: sl.torrent.map (fun l => "- " ++ l))

/-- The lines of the record for a fetched document, or an error when link
classification raised. -/
def extractLines (url : String) (d : Doc) : Except Unit (List String) :=
  match processTables d.tables with
  | Except.error e => Except.error e
  | Except.ok sl =>
    Except.ok
      (["URL: " ++ url,
        "Game Name: " ++ gameNameOf d,
        "Game Version: " ++ versionOf d,
        "Language: " ++ languageOf d,
        "Required firmware: " ++ firmwareOf d,
        "\nDetected Sizes:"] ++
       sizesLines (size_matches d.fullText) ++
       ["\nDownload Links:"] ++
       sectionOutput sl)

/-- parse_and_save_game: none models a fetch that exhausted its retries
(the raised exception is caught and the task returns False without
writing); some lines models the record written to the output file
(the function returns True). -/
def parse_and_save_game (url : String) (fetched : Option Doc) : Option (List String) :=
  match fetched with
  | none => none
  | some d =>
    match extractLines url d with
    | Except.ok lines => some lines
    | Except.error _ => none

/-- A document with no title, no tables and no text. -/
def emptyDoc : Doc := Doc.mk none [] ""

/-- The file content: "\n".join(lines). -/
def serializeRecord (lines : List String) : String := String.intercalate "\n" lines

/-- One phase-2 task against a store of output files (filename to content):
on success the record is written under the sanitized name, overwriting any
previous content; on failure the store is untouched. -/
def runTask (st : List (String × String)) (url : String) (fetched : Option Doc) :
    List (String × String) :=
  match fetched with
  | none => st
  | some d =>
    match parse_and_save_game url (some d) with
    | some lines =>
      dictInsert st (sanitize_filename (gameNameOf d) ++ ".txt") (serializeRecord lines)
    | none => st

/-! ## Aggregation of discovered URLs (src/dlsp.py lines 176-190) -/

/-- The orchestrator collects per-page results with all_game_urls.extend:
plain concatenation, in completion order, with no deduplication. -/
def aggregate_game_urls (pageResults : List (List String)) : List String :=
  pageResults.foldl (fun acc urls => acc ++ urls) []

/-! ## C8: link row classification -/

/-- Claim C8: a row with at least four cells is classified by the lowercase
text of its first cell (base, else update-and-not-fix, else fix, else
nothing) and every href-bearing anchor of the fourth cell is appended to
that category as "href - display text"; a two-cell row whose first cell
mentions torrent contributes the first anchor of the first cell; the
documented Base Game row with two anchors places both under BaseGame. -/
theorem processRow_spec :
    (∀ (sl : SectionLinks) (c0 c1 c2 c3 : Cell) (rest : List Cell),
      (strHasSub (strLower (pyStripStr c0.text)) "base" = true →
        processRow sl (Row.mk (c0 :: c1 :: c2 :: c3 :: rest)) =
          Except.ok { sl with baseGame := sl.baseGame ++ cellLinks c3 }) ∧
      (strHasSub (strLower (pyStripStr c0.text)) "base" = false →
        strHasSub (strLower (pyStripStr c0.text)) "update" = true →
        strHasSub (strLower (pyStripStr c0.text)) "fix" = false →
        processRow sl (Row.mk (c0 :: c1 :: c2 :: c3 :: rest)) =
          Except.ok { sl with update := sl.update ++ cellLinks c3 }) ∧
      (strHasSub (strLower (pyStripStr c0.text)) "base" = false →
        strHasSub (strLower (pyStripStr c0.text)) "fix" = true →
        processRow sl (Row.mk (c0 :: c1 :: c2 :: c3 :: rest)) =
          Except.ok { sl with fix := sl.fix ++ cellLinks c3 }) ∧
      (strHasSub (strLower (pyStripStr c0.text)) "base" = false →
        strHasSub (strLower (pyStripStr c0.text)) "update" = false →
        strHasSub (strLower (pyStripStr c0.text)) "fix" = false →
        processRow sl (Row.mk (c0 :: c1 :: c2 :: c3 :: rest)) = Except.ok sl)) ∧
    (∀ (sl : SectionLinks) (c0 c1 : Cell) (a : Anchor) (rest : List Anchor) (h : String),
      strHasSub (strLower c0.text) "torrent" = true →
      c0.anchors = a :: rest → a.href = some h →
      processRow sl (Row.mk [c0, c1]) =
        Except.ok { sl with torrent := sl.torrent ++ [formatLink h a.text] }) ∧
    processRow emptySections
      (Row.mk [Cell.mk "Base Game" [], Cell.mk "" [], Cell.mk "" [],
        Cell.mk "" [Anchor.mk (some "h1") "t1", Anchor.mk (some "h2") "t2"]]) =
      Except.ok (SectionLinks.mk ["h1 - t1", "h2 - t2"] [] [] []) := by
  refine ⟨?_, ?_, rfl⟩
  · intro sl c0 c1 c2 c3 rest
    refine ⟨?_, ?_, ?_, ?_⟩
    · intro hb
      simp [processRow, hb]
    · intro hb hu hf
      simp [processRow, hb, hu, hf]
    · intro hb hf
      simp [processRow, hb, hf]
    · intro hb hu hf
      simp [processRow, hb, hu, hf]
  · intro sl c0 c1 a rest h ht ha hh
    simp [processRow, ht, ha, hh]

/-- Witness for C8 at a concrete update row and a concrete torrent row. -/
theorem processRow_spec_w :
    processRow emptySections
      (Row.mk [Cell.mk "Update v2" [], Cell.mk "" [], Cell.mk "" [],
        Cell.mk "" [Anchor.mk (some "u1") "m1"]]) =
      Except.ok { emptySections with update := [] ++ cellLinks (Cell.mk "" [Anchor.mk (some "u1") "m1"]) } ∧
    processRow emptySections
      (Row.mk [Cell.mk "Torrent" [Anchor.mk (some "t1") "n1"], Cell.mk "" []]) =
      Except.ok { emptySections with torrent := [] ++ [formatLink "t1" "n1"] } :=
  ⟨(processRow_spec.1 emptySections (Cell.mk "Update v2" []) (Cell.mk "" []) (Cell.mk "" [])
      (Cell.mk "" [Anchor.mk (some "u1") "m1"]) []).2.1 (by decide) (by decide) (by decide),
   processRow_spec.2.1 emptySections (Cell.mk "Torrent" [Anchor.mk (some "t1") "n1"])
      (Cell.mk "" []) (Anchor.mk (some "t1") "n1") [] "t1" (by decide) rfl rfl⟩

/-! ## C3: record written iff extraction completed -/

/-- Claim C3: a fetch that exhausted its retries yields a failure outcome
and no record; a successful fetch yields a record exactly when extraction
completed (Except.ok); a document with no title, no tables and no sizes
still yields a record made of sentinel defaults. -/
theorem parse_and_save_game_spec :
    (∀ url : String, parse_and_save_game url none = none) ∧
    (∀ (url : String) (d : Doc) (lines : List String),
      parse_and_save_game url (some d) = some lines ↔
        extractLines url d = Except.ok lines) ∧
    (∀ url : String, parse_and_save_game url (some emptyDoc) =
      some ["URL: " ++ url, "Game Name: Unknown", "Game Version: Unknown",
        "Language: Unknown", "Required firmware: Unknown", "\nDetected Sizes:",
        "- Unknown", "\nDownload Links:"]) := by
  refine ⟨fun _ => rfl, ?_, fun _ => rfl⟩
  intro url d lines
  unfold parse_and_save_game
  cases he : extractLines url d with
  | ok l => simp [he]
  | error e => simp [he]

/-- Witness for C3: the equivalence applied at a concrete document. -/
theorem parse_and_save_game_spec_w :
    parse_and_save_game "u" (some emptyDoc) =
      some ["URL: u", "Game Name: Unknown", "Game Version: Unknown",
        "Language: Unknown", "Required firmware: Unknown", "\nDetected Sizes:",
        "- Unknown", "\nDownload Links:"] :=
  (parse_and_save_game_spec.2.1 "u" emptyDoc
    ["URL: u", "Game Name: Unknown", "Game Version: Unknown",
      "Language: Unknown", "Required firmware: Unknown", "\nDetected Sizes:",
      "- Unknown", "\nDownload Links:"]).mpr rfl

/-! ## C9: determinism and idempotence of re-extraction -/

theorem any_map_replace (k v : String) :
    ∀ d : List (String × String),
      ((d.map (fun p => if p.1 == k then (k, v) else p)).any (fun p => p.1 == k)) =
        d.any (fun p => p.1 == k) := by
  intro d
  induction d with
  | nil => rfl
  | cons q r ih =>
    simp only [List.map_cons, List.any_cons]
    by_cases hq : q.1 = k
    · have e1 : (if (q.1 == k) = true then ((k, v) : String × String) else q) = (k, v) := by
        simp [hq]
      have h1 : (q.1 == k) = true := by simp [hq]
      rw [e1, h1]
      simp
    · have e1 : (if (q.1 == k) = true then ((k, v) : String × String) else q) = q := by
        simp [hq]
      have h1 : (q.1 == k) = false := by simp [hq]
      rw [e1, h1]
      simp only [h1, Bool.false_or]
      exact ih

theorem dictInsert_idem (d : List (String × String)) (k v : String) :
    dictInsert (dictInsert d k v) k v = dictInsert d k v := by
  by_cases h : d.any (fun p => p.1 == k) = true
  · unfold dictInsert
    rw [if_pos h, if_pos ((any_map_replace k v d).symm ▸ h), List.map_map]
    apply List.map_congr_left
    intro q _
    by_cases hq : q.1 = k
    · simp [hq]
    · simp [hq]
  · have hfalse : ∀ q ∈ d, (q.1 == k) = false := by
      intro q hq
      by_cases hqk : q.1 = k
      · exact absurd (List.any_eq_true.mpr ⟨q, hq, by simp [hqk]⟩) h
      · simp [hqk]
    unfold dictInsert
    rw [if_neg h]
    have happ : ((d ++ [(k, v)]).any fun p => p.1 == k) = true := by
      simp [List.any_append]
    rw [if_pos happ, List.map_append]
    have hd : d.map (fun p => if p.1 == k then (k, v) else p) = d := by
      have hcg : ∀ q ∈ d, (if (q.1 == k) = true then ((k, v) : String × String) else q) =
          id q := by
        intro q hq
        simp [hfalse q hq]
      rw [List.map_congr_left hcg, List.map_id]
    rw [hd]
    simp

/-- Claim C9: extraction is deterministic in its input (two runs on the
same url and fetched document produce byte-identical serialized record
content), and re-running a phase-2 task leaves the output-file store
unchanged (the second write overwrites the file with the same bytes). -/
theorem extract_deterministic_idem :
    (∀ (url : String) (fetched : Option Doc) (l1 l2 : List String),
      parse_and_save_game url fetched = some l1 →
      parse_and_save_game url fetched = some l2 →
      serializeRecord l1 = serializeRecord l2) ∧
    (∀ (st : List (String × String)) (url : String) (fetched : Option Doc),
      runTask (runTask st url fetched) url fetched = runTask st url fetched) := by
  constructor
  · intro url fetched l1 l2 h1 h2
    rw [h1] at h2
    obtain rfl : l1 = l2 := by simpa using h2
    rfl
  · intro st url fetched
    cases fetched with
    | none => rfl
    | some d =>
      simp only [runTask]
      cases hp : parse_and_save_game url (some d) with
      | none => rfl
      | some lines => exact dictInsert_idem st _ _

/-- Witness for C9: determinism applied at a concrete extraction. -/
theorem extract_deterministic_idem_w :
    serializeRecord ["URL: u", "Game Name: Unknown", "Game Version: Unknown",
        "Language: Unknown", "Required firmware: Unknown", "\nDetected Sizes:",
        "- Unknown", "\nDownload Links:"] =
      serializeRecord ["URL: u", "Game Name: Unknown", "Game Version: Unknown",
        "Language: Unknown", "Required firmware: Unknown", "\nDetected Sizes:",
        "- Unknown", "\nDownload Links:"] :=
  extract_deterministic_idem.1 "u" (some emptyDoc) _ _ (by decide) (by decide)

/-! ## C1: aggregation does not deduplicate -/

theorem foldl_append_eq_flatten (l : List (List String)) :
    ∀ acc : List String, l.foldl (fun a b => a ++ b) acc = acc ++ l.flatten := by
  induction l with
  | nil => intro acc; simp
  | cons x xs ih =>
    intro acc
    simp only [List.foldl_cons, List.flatten_cons, ih (acc ++ x)]
    simp

/-- Counterexample to C1 as stated: two listing pages both returning the
URL "u" make the phase-2 input contain "u" twice, not once. -/
theorem aggregate_dup_cex :
    aggregate_game_urls [["u"], ["u"]] = ["u", "u"] ∧
    (aggregate_game_urls [["u"], ["u"]]).count "u" ≠ 1 := by
  refine ⟨by decide, by decide⟩

/-- Claim C1 (amended): the orchestrator concatenates per-page URL lists
with no deduplication, so each URL occurs in the phase-2 input once per
listing-page occurrence (its count is the sum of the per-page counts). -/
theorem aggregate_counts (pageResults : List (List String)) (u : String) :
    (aggregate_game_urls pageResults).count u =
      (pageResults.map (fun l => l.count u)).sum := by
  have hflat : aggregate_game_urls pageResults = pageResults.flatten := by
    unfold aggregate_game_urls
    rw [foldl_append_eq_flatten]
    simp
  rw [hflat, List.count_flatten]
